import Mathlib

/-!
Verification of the grid-placement engine of a hexagonal Truchet-tile
generator (`hexgrid.py`).

The embedding mirrors `HexGrid.draw` / `HexGrid._draw_tile` /
`HexGrid.add_tile` (and friends).  Notes on the translation:

* The Python operator `%` on integers with a positive divisor returns the
  non-negative remainder; this is `Int.emod`.  The Python operator `//` is
  floor division; this is `Int.fdiv`.
* `TILEH = 100` and `TILEW = (sqrt 3 / 2) * TILEH` in the source; since
  `TILEW` is irrational, tile width `W` and height `H` are kept as rational
  parameters of the drawing functions (only their symbolic role in the
  coordinate formulas, and positivity, matter for the claims).
* The process-wide random generator (`random.choice`, `random.randint`) is
  modelled by an explicit stream `g : Nat → Nat` together with a counter
  recording how many random values have been consumed; each random call
  reads the next stream value.  A seeded PRNG is exactly such a stream.
* `random.choice` on an empty list raises `IndexError`; the embedding
  returns `.error` carrying the state at the moment of failure, so that
  the partially built document is visible (the Python exception likewise
  leaves the partially mutated `self.svg` behind).
* The accumulating `<g>` element of the SVG is the `group` list; a `<use>`
  element keeps, besides the emitted attributes (`href`, `x`, `y`,
  rotation), the grid coordinate `(q, r)` and zorder flag it was placed
  with, so that placement claims can be stated.
-/

namespace HexTruchet

/-- A tile symbol.  The engine only ever reads its `id` attribute, so the
symbol is modelled by that identifier. -/
structure Tile where
  id : String
deriving DecidableEq, Repr

/-- One `<use>` placement instruction, as produced by `_draw_tile`:
the referenced tile id, the pixel position and rotation, together with the
axial coordinate `(q, r)` and the zorder flag (`beneath = true` for
`zorder=0`, i.e. corner tiles inserted at the front of the group). -/
structure UseElt where
  href : String
  q : Int
  r : Int
  x : ℚ
  y : ℚ
  rotate : Int
  beneath : Bool
deriving DecidableEq, Repr

/-- The `HexGrid` object: size, the three tile pools, the borders flag, and
the list of `<symbol>` definitions appended to the SVG so far. -/
structure HexGrid where
  size : Int
  tiles : List Tile
  edgetiles : List Tile
  cornertiles : List Tile
  borders : Bool
  symbols : List Tile
deriving DecidableEq, Repr

/-- Model of `HexGrid.add_tile`: append to `self.tiles` and (via `_add_symbol`)
append the symbol to the SVG definitions.  No identifier check occurs. -/
def add_tile (grid : HexGrid) (t : Tile) : HexGrid :=
  { grid with tiles := grid.tiles ++ [t], symbols := grid.symbols ++ [t] }

/-- Model of `HexGrid.add_edge_tile`: append to `self.edgetiles` and the SVG defs. -/
def add_edge_tile (grid : HexGrid) (t : Tile) : HexGrid :=
  { grid with edgetiles := grid.edgetiles ++ [t], symbols := grid.symbols ++ [t] }

/-- Model of `HexGrid.add_corner_tile`: append to `self.cornertiles` and the SVG defs. -/
def add_corner_tile (grid : HexGrid) (t : Tile) : HexGrid :=
  { grid with cornertiles := grid.cornertiles ++ [t], symbols := grid.symbols ++ [t] }

/-- Model of `random.choice(pool)` for a non-empty pool, driven by the next stream
value; the `getD` default is never consulted when the pool is non-empty
(the empty-pool `IndexError` case is handled at the call site in `draw`). -/
def choice (g : Nat → Nat) (n : Nat) (pool : List Tile) : Tile :=
  pool.getD (g n % pool.length) ⟨""⟩

/-- The column conversion `col = q + (r - r % 2) // 2` from `_draw_tile` (Python `%` = `Int.emod`,
Python `//` = `Int.fdiv`). -/
def col (q r : Int) : Int :=
  q + Int.fdiv (r - Int.emod r 2) 2

/-- The pixel abscissa `x = col*TILEW + (row%2)*(TILEW/2) - TILEW/2` from `_draw_tile`. -/
def tileX (W : ℚ) (q r : Int) : ℚ :=
  (col q r : ℚ) * W + (Int.emod r 2 : ℚ) * (W / 2) - W / 2

/-- The pixel ordinate `y = row*(TILEH*3/4) - TILEH/2` from `_draw_tile` (with `row = r`). -/
def tileY (H : ℚ) (r : Int) : ℚ :=
  (r : ℚ) * (H * 3 / 4) - H / 2

/-- The `<use>` element built by `_draw_tile` for `tile` at cell `(q, r)`. -/
def mkUse (W H : ℚ) (tile : Tile) (q r rotate : Int) (beneath : Bool) : UseElt :=
  { href := tile.id, q := q, r := r, x := tileX W q r, y := tileY H r,
    rotate := rotate, beneath := beneath }

/-- The zorder handling of `_draw_tile`: `zorder == 0` inserts the element
at index 0 of the group, otherwise it is appended. -/
def drawTile (W H : ℚ) (tile : Tile) (q r rotate : Int) (beneath : Bool)
    (grp : List UseElt) : List UseElt :=
  if beneath then mkUse W H tile q r rotate beneath :: grp
  else grp ++ [mkUse W H tile q r rotate beneath]

/-- The corner-rotation chain of `draw` (initial `rotate = 0`, then the five
`if`/`elif` branches in source order). -/
def cornerRotate (size q r : Int) : Int :=
  let s := -q - r
  if q = 0 ∧ s = size - 1 then 4
  else if s = 0 ∧ q = size - 1 then 5
  else if q = 0 ∧ r = size - 1 then 1
  else if r = 0 ∧ s = size - 1 then 3
  else if s = 0 ∧ r = size - 1 then 2
  else 0

/-- The edge-rotation chain of `draw` (initial `rotate = 1`, then the five
`if`/`elif` branches in source order; note the literal `-1`, not `5`). -/
def edgeRotate (size q r : Int) : Int :=
  let s := -q - r
  if r = size - 1 then 2
  else if r = -size + 1 then -1
  else if s = size - 1 then 4
  else if q = -size + 1 then 3
  else if q = size - 1 then 0
  else 1

/-- Mutable state while `draw` runs: the children of the `<g>` element and
the number of random values consumed so far. -/
structure DState where
  group : List UseElt
  n : Nat
deriving DecidableEq, Repr

/-- The body of the `draw` loop for one coordinate `(q, r)` that survived
the `abs(q+r)` filter.  Mirrors the border / corner / edge / interior
branching of the source; `.error` models the `IndexError` that
`random.choice(self.tiles)` raises on an empty interior pool, carrying the
state (and hence the partially built group) at that moment. -/
def drawCell (W H : ℚ) (g : Nat → Nat) (grid : HexGrid) (st : DState)
    (q r : Int) : Except DState DState :=
  let s := -q - r
  if max |q| (max |r| |s|) = grid.size - 1 then
    if (q = 0 ∨ r = 0 ∨ s = 0) ∧ grid.cornertiles ≠ [] then
      let tile := choice g st.n grid.cornertiles
      .ok { group := drawTile W H tile q r (cornerRotate grid.size q r) true st.group,
            n := st.n + 1 }
    else if grid.edgetiles ≠ [] then
      let tile := choice g st.n grid.edgetiles
      .ok { group := drawTile W H tile q r (edgeRotate grid.size q r) false st.group,
            n := st.n + 1 }
    else
      .ok st
  else
    if grid.tiles = [] then
      .error st
    else
      let tile := choice g st.n grid.tiles
      let rot : Int := (g (st.n + 1) % 6 : Nat)
      .ok { group := drawTile W H tile q r rot false st.group, n := st.n + 2 }

/-- The Python `range(a, b)` over integers. -/
def intRange (a b : Int) : List Int :=
  (List.range (b - a).toNat).map (fun (i : Nat) => a + (i : Int))

/-- The coordinates visited by the nested loops of `draw` in iteration
order: `q, r ∈ range(-size+1, size)` with `abs(q+r) > size-1` skipped. -/
def hexCoords (size : Int) : List (Int × Int) :=
  (intRange (-size + 1) size).flatMap (fun q =>
    ((intRange (-size + 1) size).filter (fun r => |q + r| ≤ size - 1)).map
      (fun r => (q, r)))

/-- Run the `draw` loop over a list of coordinates, stopping at the first
error (a raised exception aborts the Python loop). -/
def drawFold (W H : ℚ) (g : Nat → Nat) (grid : HexGrid) :
    List (Int × Int) → DState → Except DState DState
  | [], st => .ok st
  | c :: cs, st =>
    match drawCell W H g grid st c.1 c.2 with
    | .error e => .error e
    | .ok st' => drawFold W H g grid cs st'

/-- Model of `HexGrid.draw`: place all tiles, starting from an empty `<g>` group and
a fresh random-stream position. -/
def draw (W H : ℚ) (g : Nat → Nat) (grid : HexGrid) : Except DState DState :=
  drawFold W H g grid (hexCoords grid.size) ⟨[], 0⟩

/-- The children of the `<g>` element after `draw` returns or raises
(a raised exception leaves the partially mutated document behind). -/
def placements (e : Except DState DState) : List UseElt :=
  match e with
  | .ok st => st.group
  | .error st => st.group

/-- Whether `draw` completed without raising. -/
def isOk (e : Except DState DState) : Bool :=
  match e with
  | .ok _ => true
  | .error _ => false

/-- Key of a placement instruction: the axial coordinate it was drawn at. -/
def cellKey (u : UseElt) : Int × Int := (u.q, u.r)

/-- Ordering invariant of the group: a block of beneath (`zorder=0`)
placements followed by a block of normal placements. -/
def beneathSplit (l : List UseElt) : Prop :=
  ∃ a b, l = a ++ b ∧ (∀ u ∈ a, u.beneath = true) ∧ (∀ u ∈ b, u.beneath = false)

/-- Arithmetic consequences of the border test
`max(abs(q), abs(r), abs(s)) == size-1` of `draw`, in a form linear
arithmetic can use. -/
theorem boundary_arith {q r size : Int}
    (hb : max |q| (max |r| |-q - r|) = size - 1) :
    (-(size - 1) ≤ q ∧ q ≤ size - 1 ∧ -(size - 1) ≤ r ∧ r ≤ size - 1 ∧
      -(size - 1) ≤ q + r ∧ q + r ≤ size - 1) ∧
    (q = size - 1 ∨ q = -(size - 1) ∨ r = size - 1 ∨ r = -(size - 1) ∨
      q + r = size - 1 ∨ q + r = -(size - 1)) := by
  have h0 : 0 ≤ size - 1 := le_trans (abs_nonneg q) (le_of_le_of_eq (le_max_left _ _) hb)
  have hq := abs_le.mp (le_of_le_of_eq (le_max_left _ _) hb)
  have hr := abs_le.mp (le_of_le_of_eq (le_trans (le_max_left _ _) (le_max_right _ _)) hb)
  have hs := abs_le.mp (le_of_le_of_eq (le_trans (le_max_right _ _) (le_max_right _ _)) hb)
  refine ⟨by omega, ?_⟩
  rcases max_choice |q| (max |r| |-q - r|) with h | h
  · rcases (abs_eq h0).mp (h.symm.trans hb) with h1 | h1 <;> omega
  · rcases max_choice |r| |-q - r| with h2 | h2
    · rcases (abs_eq h0).mp (h2.symm.trans (h.symm.trans hb)) with h1 | h1 <;> omega
    · rcases (abs_eq h0).mp (h2.symm.trans (h.symm.trans hb)) with h1 | h1 <;> omega

/-- C9, counterexample: registering a second tile whose identifier equals an
already-registered one is not reported as an error; `add_tile` silently
appends the duplicate to the pool and to the SVG definitions. -/
theorem c9_counterexample :
    add_tile (add_tile ⟨3, [], [], [], false, []⟩ ⟨"A"⟩) ⟨"A"⟩ =
      ⟨3, [⟨"A"⟩, ⟨"A"⟩], [], [], false, [⟨"A"⟩, ⟨"A"⟩]⟩ := rfl

/-- C9, amended: tile registration performs no identifier check in any of
the three pools; the handle is unconditionally appended to the pool and its
symbol to the SVG definitions, so duplicates are silently accepted. -/
theorem c9_registration_unchecked (grid : HexGrid) (t : Tile) :
    (add_tile grid t).tiles = grid.tiles ++ [t] ∧
    (add_tile grid t).symbols = grid.symbols ++ [t] ∧
    (add_edge_tile grid t).edgetiles = grid.edgetiles ++ [t] ∧
    (add_edge_tile grid t).symbols = grid.symbols ++ [t] ∧
    (add_corner_tile grid t).cornertiles = grid.cornertiles ++ [t] ∧
    (add_corner_tile grid t).symbols = grid.symbols ++ [t] :=
  ⟨rfl, rfl, rfl, rfl, rfl, rfl⟩

/-- C10: with a fixed random stream (seed) and identical configuration —
same size, borders flag, and identically-ordered pools — two runs of `draw`
produce identical results, and in particular identical sequences of
placement instructions (tile identifier, pixel position, rotation, in the
same document order). -/
theorem c10_determinism (W H W2 H2 : ℚ) (g g2 : Nat → Nat)
    (grid grid2 : HexGrid) (hW : W = W2) (hH : H = H2) (hg : g = g2)
    (hgrid : grid = grid2) :
    draw W H g grid = draw W2 H2 g2 grid2 ∧
    (placements (draw W H g grid)).map (fun u => (u.href, u.x, u.y, u.rotate)) =
      (placements (draw W2 H2 g2 grid2)).map (fun u => (u.href, u.x, u.y, u.rotate)) := by
  subst hW; subst hH; subst hg; subst hgrid; exact ⟨rfl, rfl⟩

/-- C10, witness at a concrete configuration. -/
theorem c10_determinism_witness :
    draw 1 1 (fun _ => 0) ⟨2, [⟨"A"⟩], [⟨"E"⟩], [⟨"C"⟩], false, []⟩ =
      draw 1 1 (fun _ => 0) ⟨2, [⟨"A"⟩], [⟨"E"⟩], [⟨"C"⟩], false, []⟩ :=
  (c10_determinism 1 1 1 1 (fun _ => 0) (fun _ => 0)
    ⟨2, [⟨"A"⟩], [⟨"E"⟩], [⟨"C"⟩], false, []⟩
    ⟨2, [⟨"A"⟩], [⟨"E"⟩], [⟨"C"⟩], false, []⟩ rfl rfl rfl rfl).1

/-- C1, counterexample: a size-2 grid with a non-empty interior pool but
empty edge and corner pools places only the interior cell `(0, 0)`; the
valid region coordinate `(0, 1)` gets no placement instruction, because a
border cell whose corner and edge branches are gated off is skipped
entirely rather than falling through to interior placement. -/
theorem c1_counterexample :
    ((0 : Int), (1 : Int)) ∈ hexCoords 2 ∧
    (placements (draw 1 1 (fun _ => 0)
        ⟨2, [⟨"A"⟩], [], [], false, [⟨"A"⟩]⟩)).map cellKey = [(0, 0)] :=
  ⟨by decide, rfl⟩

/-- C2, counterexample: for `size = 1` with one interior tile `"A"` and
empty edge/corner pools, `draw` succeeds but produces zero placements — the
single cell `(0,0)` is a border cell and is skipped outright, with no
fall-through to interior placement (the claim predicts exactly one
placement of tile `"A"`). -/
theorem c2_counterexample :
    isOk (draw 1 1 (fun _ => 0) ⟨1, [⟨"A"⟩], [], [], false, [⟨"A"⟩]⟩) = true ∧
    placements (draw 1 1 (fun _ => 0) ⟨1, [⟨"A"⟩], [], [], false, [⟨"A"⟩]⟩) = [] :=
  ⟨rfl, rfl⟩

/-- C2, amended: when the edge and/or corner pool is empty, `draw` does
not fail, but a border cell whose applicable pools are empty is skipped
entirely rather than falling through to interior placement: for every
grid, size and cell, a border cell for which the corner branch does not
apply (not a corner cell, or empty corner pool) and whose edge pool is
empty leaves the state unchanged — no placement is emitted, no randomness
is consumed, and no error is raised; in particular, for `size = 1` with
empty edge and corner pools, whatever the interior pool and random
stream, `draw` returns an empty document with no random value consumed. -/
theorem c2_boundary_skip (W H : ℚ) (g : Nat → Nat) (grid : HexGrid) :
    (∀ (st : DState) (q r : Int),
      max |q| (max |r| |-q - r|) = grid.size - 1 →
      ¬((q = 0 ∨ r = 0 ∨ -q - r = 0) ∧ grid.cornertiles ≠ []) →
      grid.edgetiles = [] →
      drawCell W H g grid st q r = .ok st) ∧
    (grid.size = 1 → grid.edgetiles = [] → grid.cornertiles = [] →
      draw W H g grid = .ok ⟨[], 0⟩) := by
  constructor
  · intro st q r hb hnc he
    unfold drawCell
    rw [if_pos hb, if_neg hnc, if_neg (by simp [he])]
  · intro hsz he hc
    have h1 : hexCoords grid.size = [(0, 0)] := by rw [hsz]; rfl
    unfold draw
    rw [h1]
    simp [drawFold, drawCell, hsz, he, hc]

/-- C2, witness: the size-1 scenario of the claim, with the skip of its
single border cell also exhibited at the cell level. -/
theorem c2_boundary_skip_witness :
    drawCell 1 1 (fun _ => 0) ⟨1, [⟨"A"⟩], [], [], false, [⟨"A"⟩]⟩ ⟨[], 0⟩ 0 0 =
      .ok ⟨[], 0⟩ ∧
    draw 1 1 (fun _ => 0) ⟨1, [⟨"A"⟩], [], [], false, [⟨"A"⟩]⟩ = .ok ⟨[], 0⟩ :=
  ⟨(c2_boundary_skip 1 1 (fun _ => 0) ⟨1, [⟨"A"⟩], [], [], false, [⟨"A"⟩]⟩).1
      ⟨[], 0⟩ 0 0 (by decide) (by decide) rfl,
   (c2_boundary_skip 1 1 (fun _ => 0) ⟨1, [⟨"A"⟩], [], [], false, [⟨"A"⟩]⟩).2
      rfl rfl rfl⟩

/-- C8, counterexample: `size = 2`, empty interior pool, one edge tile.
`draw` is not refused before placement work begins: it fails only when the
first interior cell `(0,0)` is reached, by which time three border
placements have already been added to the document — a partial document is
left behind. -/
theorem c8_counterexample :
    isOk (draw 1 1 (fun _ => 0) ⟨2, [], [⟨"E"⟩], [], false, [⟨"E"⟩]⟩) = false ∧
    (placements (draw 1 1 (fun _ => 0) ⟨2, [], [⟨"E"⟩], [], false, [⟨"E"⟩]⟩)).length = 3 :=
  ⟨rfl, rfl⟩

/-- C3: for an edge-classified cell (border cell that is not handled by the
corner branch, with a non-empty edge pool) the placement appends one
element whose rotation is `edgeRotate grid.size q r` — a pure function of
`(q, r, size)` in which the random stream `g` plays no part — and
`edgeRotate` follows, modulo 6, the fixed first-match mapping
`r=size-1 → 2`, `r=-(size-1) → 5` (the code writes `-1`), `s=size-1 → 4`,
`q=-(size-1) → 3`, `q=size-1 → 0`, default `1`; moreover the default case
of an edge cell forces `s = -(size-1)`. -/
theorem c3_edge_rotation (W H : ℚ) (g : Nat → Nat) (grid : HexGrid)
    (st : DState) (q r : Int)
    (hb : max |q| (max |r| |-q - r|) = grid.size - 1)
    (hnc : ¬((q = 0 ∨ r = 0 ∨ -q - r = 0) ∧ grid.cornertiles ≠ []))
    (he : grid.edgetiles ≠ []) :
    drawCell W H g grid st q r =
      .ok ⟨st.group ++
            [mkUse W H (choice g st.n grid.edgetiles) q r
              (edgeRotate grid.size q r) false], st.n + 1⟩ ∧
    (r = grid.size - 1 → (edgeRotate grid.size q r).emod 6 = 2) ∧
    (¬r = grid.size - 1 → r = -(grid.size - 1) →
      (edgeRotate grid.size q r).emod 6 = 5) ∧
    (¬r = grid.size - 1 → ¬r = -(grid.size - 1) → -q - r = grid.size - 1 →
      (edgeRotate grid.size q r).emod 6 = 4) ∧
    (¬r = grid.size - 1 → ¬r = -(grid.size - 1) → ¬(-q - r = grid.size - 1) →
      q = -(grid.size - 1) → (edgeRotate grid.size q r).emod 6 = 3) ∧
    (¬r = grid.size - 1 → ¬r = -(grid.size - 1) → ¬(-q - r = grid.size - 1) →
      ¬q = -(grid.size - 1) → q = grid.size - 1 →
      (edgeRotate grid.size q r).emod 6 = 0) ∧
    (¬r = grid.size - 1 → ¬r = -(grid.size - 1) → ¬(-q - r = grid.size - 1) →
      ¬q = -(grid.size - 1) → ¬q = grid.size - 1 →
      (edgeRotate grid.size q r).emod 6 = 1 ∧ -q - r = -(grid.size - 1)) := by
  refine ⟨?_, ?_, ?_, ?_, ?_, ?_, ?_⟩
  · unfold drawCell
    rw [if_pos hb, if_neg hnc, if_pos he]
    simp [drawTile]
  · intro h1
    simp only [edgeRotate]
    rw [if_pos h1]
    decide
  · intro h1 h2
    simp only [edgeRotate]
    rw [if_neg h1, if_pos (show r = -grid.size + 1 by omega)]
    decide
  · intro h1 h2 h3
    simp only [edgeRotate]
    rw [if_neg h1, if_neg (show ¬r = -grid.size + 1 by omega), if_pos h3]
    decide
  · intro h1 h2 h3 h4
    simp only [edgeRotate]
    rw [if_neg h1, if_neg (show ¬r = -grid.size + 1 by omega), if_neg h3,
      if_pos (show q = -grid.size + 1 by omega)]
    decide
  · intro h1 h2 h3 h4 h5
    simp only [edgeRotate]
    rw [if_neg h1, if_neg (show ¬r = -grid.size + 1 by omega), if_neg h3,
      if_neg (show ¬q = -grid.size + 1 by omega), if_pos h5]
    decide
  · intro h1 h2 h3 h4 h5
    obtain ⟨hbounds, hd⟩ := boundary_arith hb
    constructor
    · simp only [edgeRotate]
      rw [if_neg h1, if_neg (show ¬r = -grid.size + 1 by omega), if_neg h3,
        if_neg (show ¬q = -grid.size + 1 by omega), if_neg h5]
      decide
    · omega

/-- C3, witness: the edge cell `(2, -1)` of a size-3 grid with one edge
tile and no corner tiles. -/
theorem c3_edge_rotation_witness :
    drawCell 1 1 (fun _ => 0) ⟨3, [⟨"A"⟩], [⟨"E"⟩], [], false, []⟩ ⟨[], 0⟩ 2 (-1) =
      .ok ⟨[mkUse 1 1 (choice (fun _ => 0) 0 [⟨"E"⟩]) 2 (-1)
              (edgeRotate 3 2 (-1)) false], 1⟩ :=
  (c3_edge_rotation 1 1 (fun _ => 0) ⟨3, [⟨"A"⟩], [⟨"E"⟩], [], false, []⟩
    ⟨[], 0⟩ 2 (-1) (by decide) (by decide) (by decide)).1

/-- C4: for a corner-classified cell (border cell with one of `q`, `r`, `s`
zero and a non-empty corner pool) the placement prepends one element whose
rotation is `cornerRotate grid.size q r`, independent of the random
stream; `cornerRotate` follows the first-match mapping
`(q=0, s=size-1) → 4`, `(s=0, q=size-1) → 5`, `(q=0, r=size-1) → 1`,
`(r=0, s=size-1) → 3`, `(s=0, r=size-1) → 2`, and the unbranched default
`0` is reached by a corner cell exactly when `r = 0` and `q = size-1`;
for `size = 1` the single cell satisfies all three zero-coordinate
predicates, the first-matching branch wins (rotation `4`), and `draw`
yields exactly one placement. -/
theorem c4_corner_rotation (W H : ℚ) (g : Nat → Nat) (grid : HexGrid)
    (st : DState) (q r : Int) :
    (max |q| (max |r| |-q - r|) = grid.size - 1 →
      (q = 0 ∨ r = 0 ∨ -q - r = 0) → grid.cornertiles ≠ [] →
      drawCell W H g grid st q r =
        .ok ⟨mkUse W H (choice g st.n grid.cornertiles) q r
              (cornerRotate grid.size q r) true :: st.group, st.n + 1⟩) ∧
    (q = 0 ∧ -q - r = grid.size - 1 → cornerRotate grid.size q r = 4) ∧
    (¬(q = 0 ∧ -q - r = grid.size - 1) →
      -q - r = 0 ∧ q = grid.size - 1 → cornerRotate grid.size q r = 5) ∧
    (¬(q = 0 ∧ -q - r = grid.size - 1) → ¬(-q - r = 0 ∧ q = grid.size - 1) →
      q = 0 ∧ r = grid.size - 1 → cornerRotate grid.size q r = 1) ∧
    (¬(q = 0 ∧ -q - r = grid.size - 1) → ¬(-q - r = 0 ∧ q = grid.size - 1) →
      ¬(q = 0 ∧ r = grid.size - 1) →
      r = 0 ∧ -q - r = grid.size - 1 → cornerRotate grid.size q r = 3) ∧
    (¬(q = 0 ∧ -q - r = grid.size - 1) → ¬(-q - r = 0 ∧ q = grid.size - 1) →
      ¬(q = 0 ∧ r = grid.size - 1) → ¬(r = 0 ∧ -q - r = grid.size - 1) →
      -q - r = 0 ∧ r = grid.size - 1 → cornerRotate grid.size q r = 2) ∧
    (max |q| (max |r| |-q - r|) = grid.size - 1 →
      (q = 0 ∨ r = 0 ∨ -q - r = 0) →
      ¬(q = 0 ∧ -q - r = grid.size - 1) → ¬(-q - r = 0 ∧ q = grid.size - 1) →
      ¬(q = 0 ∧ r = grid.size - 1) → ¬(r = 0 ∧ -q - r = grid.size - 1) →
      ¬(-q - r = 0 ∧ r = grid.size - 1) →
      r = 0 ∧ q = grid.size - 1 ∧ cornerRotate grid.size q r = 0) ∧
    (grid.size = 1 → grid.cornertiles ≠ [] →
      draw W H g grid =
        .ok ⟨[mkUse W H (choice g 0 grid.cornertiles) 0 0 4 true], 1⟩) := by
  refine ⟨?_, ?_, ?_, ?_, ?_, ?_, ?_, ?_⟩
  · intro hb hcp hpool
    unfold drawCell
    rw [if_pos hb, if_pos ⟨hcp, hpool⟩]
    simp [drawTile]
  · intro h1
    simp only [cornerRotate]
    rw [if_pos h1]
  · intro h1 h2
    simp only [cornerRotate]
    rw [if_neg h1, if_pos h2]
  · intro h1 h2 h3
    simp only [cornerRotate]
    rw [if_neg h1, if_neg h2, if_pos h3]
  · intro h1 h2 h3 h4
    simp only [cornerRotate]
    rw [if_neg h1, if_neg h2, if_neg h3, if_pos h4]
  · intro h1 h2 h3 h4 h5
    simp only [cornerRotate]
    rw [if_neg h1, if_neg h2, if_neg h3, if_neg h4, if_pos h5]
  · intro hb hcp h1 h2 h3 h4 h5
    obtain ⟨hbounds, hd⟩ := boundary_arith hb
    refine ⟨by omega, by omega, ?_⟩
    simp only [cornerRotate]
    rw [if_neg h1, if_neg h2, if_neg h3, if_neg h4, if_neg h5]
  · intro hsz hpool
    have h1 : hexCoords grid.size = [(0, 0)] := by rw [hsz]; rfl
    have h4 : cornerRotate grid.size 0 0 = 4 := by rw [hsz]; rfl
    have hc : drawCell W H g grid ⟨[], 0⟩ 0 0 =
        .ok ⟨[mkUse W H (choice g 0 grid.cornertiles) 0 0 4 true], 1⟩ := by
      unfold drawCell
      rw [if_pos (show max |(0 : Int)| (max |(0 : Int)| |-(0 : Int) - 0|) = grid.size - 1 by
            rw [hsz]; rfl),
        if_pos ⟨Or.inl rfl, hpool⟩]
      simp [drawTile, h4]
    unfold draw
    rw [h1]
    simp only [drawFold]
    rw [hc]

/-- C4, witness: the size-1 grid with one corner tile yields exactly one
placement, rotated by the first-matching corner branch. -/
theorem c4_corner_rotation_witness :
    draw 1 1 (fun _ => 0) ⟨1, [], [], [⟨"C"⟩], false, []⟩ =
      .ok ⟨[mkUse 1 1 (choice (fun _ => 0) 0 [⟨"C"⟩]) 0 0 4 true], 1⟩ :=
  (c4_corner_rotation 1 1 (fun _ => 0) ⟨1, [], [], [⟨"C"⟩], false, []⟩
    ⟨[], 0⟩ 0 0).2.2.2.2.2.2.2 rfl (by decide)

/-- The empty group satisfies the stacking-order invariant. -/
theorem beneathSplit_nil : beneathSplit [] := ⟨[], [], rfl, by simp, by simp⟩

/-- Prepending a beneath placement preserves the stacking-order invariant. -/
theorem beneathSplit_cons (l : List UseElt) (u : UseElt)
    (hu : u.beneath = true) (h : beneathSplit l) : beneathSplit (u :: l) := by
  obtain ⟨a, b, rfl, ha, hb⟩ := h
  refine ⟨u :: a, b, rfl, ?_, hb⟩
  intro v hv
  rcases List.mem_cons.mp hv with h1 | h1
  · rw [h1]; exact hu
  · exact ha v h1

/-- Appending a normal placement preserves the stacking-order invariant. -/
theorem beneathSplit_append (l : List UseElt) (u : UseElt)
    (hu : u.beneath = false) (h : beneathSplit l) : beneathSplit (l ++ [u]) := by
  obtain ⟨a, b, rfl, ha, hb⟩ := h
  refine ⟨a, b ++ [u], by rw [List.append_assoc], ha, ?_⟩
  intro v hv
  rcases List.mem_append.mp hv with h1 | h1
  · exact hb v h1
  · rw [List.mem_singleton.mp h1]; exact hu

/-- Every single placement step preserves the stacking-order invariant. -/
theorem drawCell_beneathSplit (W H : ℚ) (g : Nat → Nat) (grid : HexGrid)
    (st : DState) (q r : Int) (h : beneathSplit st.group) :
    beneathSplit (placements (drawCell W H g grid st q r)) := by
  unfold drawCell
  by_cases hb : max |q| (max |r| |-q - r|) = grid.size - 1
  · rw [if_pos hb]
    by_cases hc : (q = 0 ∨ r = 0 ∨ -q - r = 0) ∧ grid.cornertiles ≠ []
    · rw [if_pos hc]
      simp only [placements, drawTile, if_true]
      exact beneathSplit_cons _ _ rfl h
    · rw [if_neg hc]
      by_cases he : grid.edgetiles ≠ []
      · rw [if_pos he]
        simp only [placements, drawTile, Bool.false_eq_true, if_false]
        exact beneathSplit_append _ _ rfl h
      · rw [if_neg he]
        exact h
  · rw [if_neg hb]
    by_cases ht : grid.tiles = []
    · rw [if_pos ht]
      exact h
    · rw [if_neg ht]
      simp only [placements, drawTile, Bool.false_eq_true, if_false]
      exact beneathSplit_append _ _ rfl h

/-- Running the placement loop preserves the stacking-order invariant. -/
theorem drawFold_beneathSplit (W H : ℚ) (g : Nat → Nat) (grid : HexGrid) :
    ∀ (cs : List (Int × Int)) (st : DState), beneathSplit st.group →
      beneathSplit (placements (drawFold W H g grid cs st)) := by
  intro cs
  induction cs with
  | nil => intro st h; exact h
  | cons c cs ih =>
    intro st h
    have hstep := drawCell_beneathSplit W H g grid st c.1 c.2 h
    simp only [drawFold]
    cases hdc : drawCell W H g grid st c.1 c.2 with
    | error e => rw [hdc] at hstep; exact hstep
    | ok st2 => rw [hdc] at hstep; exact ih st2 hstep

/-- The stacking-order invariant pins the group down as its beneath block
followed by its normal block. -/
theorem beneathSplit_filter {l : List UseElt} (h : beneathSplit l) :
    l = l.filter (fun u => u.beneath) ++ l.filter (fun u => !u.beneath) := by
  obtain ⟨a, b, rfl, ha, hb⟩ := h
  rw [List.filter_append, List.filter_append]
  have h1 : a.filter (fun u => u.beneath) = a :=
    List.filter_eq_self.mpr (fun u hu => ha u hu)
  have h2 : b.filter (fun u => u.beneath) = [] := by
    rw [List.filter_eq_nil_iff]
    intro u hu
    rw [hb u hu]
    decide
  have h3 : a.filter (fun u => !u.beneath) = [] := by
    rw [List.filter_eq_nil_iff]
    intro u hu
    rw [ha u hu]
    decide
  have h4 : b.filter (fun u => !u.beneath) = b :=
    List.filter_eq_self.mpr (fun u hu => by rw [hb u hu]; rfl)
  rw [h1, h2, h3, h4, List.append_nil, List.nil_append]

/-- C5: corner placements are inserted at the front of the placement group
(`zorder=0`) while edge and interior placements are appended, so after
every individual placement step — and in the final document — the group is
a block of beneath placements followed by a block of normal placements:
every corner placement precedes every edge and interior placement in
sibling draw order. -/
theorem c5_corner_beneath (W H : ℚ) (g : Nat → Nat) (grid : HexGrid) :
    (∀ (st : DState) (q r : Int), max |q| (max |r| |-q - r|) = grid.size - 1 →
      (q = 0 ∨ r = 0 ∨ -q - r = 0) → grid.cornertiles ≠ [] →
      placements (drawCell W H g grid st q r) =
        mkUse W H (choice g st.n grid.cornertiles) q r
          (cornerRotate grid.size q r) true :: st.group) ∧
    (∀ (st : DState) (q r : Int), max |q| (max |r| |-q - r|) = grid.size - 1 →
      ¬((q = 0 ∨ r = 0 ∨ -q - r = 0) ∧ grid.cornertiles ≠ []) →
      grid.edgetiles ≠ [] →
      placements (drawCell W H g grid st q r) =
        st.group ++ [mkUse W H (choice g st.n grid.edgetiles) q r
          (edgeRotate grid.size q r) false]) ∧
    (∀ (st : DState) (q r : Int), ¬max |q| (max |r| |-q - r|) = grid.size - 1 →
      grid.tiles ≠ [] →
      placements (drawCell W H g grid st q r) =
        st.group ++ [mkUse W H (choice g st.n grid.tiles) q r
          ((g (st.n + 1) % 6 : Nat) : Int) false]) ∧
    (∀ (st : DState) (q r : Int), beneathSplit st.group →
      beneathSplit (placements (drawCell W H g grid st q r))) ∧
    beneathSplit (placements (draw W H g grid)) ∧
    placements (draw W H g grid) =
      (placements (draw W H g grid)).filter (fun u => u.beneath) ++
        (placements (draw W H g grid)).filter (fun u => !u.beneath) := by
  refine ⟨?_, ?_, ?_, fun st q r h => drawCell_beneathSplit W H g grid st q r h,
    drawFold_beneathSplit W H g grid _ _ beneathSplit_nil,
    beneathSplit_filter (drawFold_beneathSplit W H g grid _ _ beneathSplit_nil)⟩
  · intro st q r hb hcp hpool
    unfold drawCell
    rw [if_pos hb, if_pos ⟨hcp, hpool⟩]
    simp [placements, drawTile]
  · intro st q r hb hnc he
    unfold drawCell
    rw [if_pos hb, if_neg hnc, if_pos he]
    simp [placements, drawTile]
  · intro st q r hb ht
    unfold drawCell
    rw [if_neg hb, if_neg ht]
    simp [placements, drawTile]

/-- C5, witness: the corner cell `(1, 0)` of a size-2 grid is prepended to
the group. -/
theorem c5_corner_beneath_witness :
    placements (drawCell 1 1 (fun _ => 0)
        ⟨2, [⟨"A"⟩], [⟨"E"⟩], [⟨"C"⟩], false, []⟩ ⟨[], 0⟩ 1 0) =
      [mkUse 1 1 (choice (fun _ => 0) 0 [⟨"C"⟩]) 1 0 (cornerRotate 2 1 0) true] :=
  (c5_corner_beneath 1 1 (fun _ => 0) ⟨2, [⟨"A"⟩], [⟨"E"⟩], [⟨"C"⟩], false, []⟩).1
    ⟨[], 0⟩ 1 0 (by decide) (by decide) (by decide)

/-- Each placement step only adds elements whose recorded pixel position is
the conversion of their recorded axial coordinate. -/
theorem drawCell_posOk (W H : ℚ) (g : Nat → Nat) (grid : HexGrid)
    (st : DState) (q r : Int)
    (h : ∀ u ∈ st.group, u.x = tileX W u.q u.r ∧ u.y = tileY H u.r) :
    ∀ u ∈ placements (drawCell W H g grid st q r),
      u.x = tileX W u.q u.r ∧ u.y = tileY H u.r := by
  unfold drawCell
  by_cases hb : max |q| (max |r| |-q - r|) = grid.size - 1
  · rw [if_pos hb]
    by_cases hc : (q = 0 ∨ r = 0 ∨ -q - r = 0) ∧ grid.cornertiles ≠ []
    · rw [if_pos hc]
      simp only [placements, drawTile, if_true]
      intro u hu
      rcases List.mem_cons.mp hu with h1 | h1
      · rw [h1]; exact ⟨rfl, rfl⟩
      · exact h u h1
    · rw [if_neg hc]
      by_cases he : grid.edgetiles ≠ []
      · rw [if_pos he]
        simp only [placements, drawTile, Bool.false_eq_true, if_false]
        intro u hu
        rcases List.mem_append.mp hu with h1 | h1
        · exact h u h1
        · rw [List.mem_singleton.mp h1]; exact ⟨rfl, rfl⟩
      · rw [if_neg he]
        exact h
  · rw [if_neg hb]
    by_cases ht : grid.tiles = []
    · rw [if_pos ht]
      exact h
    · rw [if_neg ht]
      simp only [placements, drawTile, Bool.false_eq_true, if_false]
      intro u hu
      rcases List.mem_append.mp hu with h1 | h1
      · exact h u h1
      · rw [List.mem_singleton.mp h1]; exact ⟨rfl, rfl⟩

/-- The whole placement loop only emits elements whose pixel position is
the conversion of their axial coordinate. -/
theorem drawFold_posOk (W H : ℚ) (g : Nat → Nat) (grid : HexGrid) :
    ∀ (cs : List (Int × Int)) (st : DState),
      (∀ u ∈ st.group, u.x = tileX W u.q u.r ∧ u.y = tileY H u.r) →
      ∀ u ∈ placements (drawFold W H g grid cs st),
        u.x = tileX W u.q u.r ∧ u.y = tileY H u.r := by
  intro cs
  induction cs with
  | nil => intro st h; exact h
  | cons c cs ih =>
    intro st h
    have hstep := drawCell_posOk W H g grid st c.1 c.2 h
    simp only [drawFold]
    cases hdc : drawCell W H g grid st c.1 c.2 with
    | error e => rw [hdc] at hstep; exact hstep
    | ok st2 => rw [hdc] at hstep; exact ih st2 hstep

/-- C6: every placement of `draw` records the pixel position
`x = col·W + (r mod 2)·(W/2) - W/2`, `y = r·(3H/4) - H/2`; the modulo used
is the non-negative mathematical one — it equals the remainder
`r - 2·(r fdiv 2)` of the division rounding toward negative infinity and
lies in `[0, 2)` also for negative `r` — and the column
`col = q + (r - (r mod 2)) fdiv 2` divides exactly. -/
theorem c6_pixel_position (W H : ℚ) (g : Nat → Nat) (grid : HexGrid) :
    (∀ u ∈ placements (draw W H g grid),
      u.x = (col u.q u.r : ℚ) * W + (Int.emod u.r 2 : ℚ) * (W / 2) - W / 2 ∧
      u.y = (u.r : ℚ) * (H * 3 / 4) - H / 2) ∧
    (∀ r : Int, Int.emod r 2 = r - 2 * Int.fdiv r 2 ∧
      0 ≤ Int.emod r 2 ∧ Int.emod r 2 < 2) ∧
    (∀ q r : Int, col q r = q + Int.fdiv (r - Int.emod r 2) 2 ∧
      2 * Int.fdiv (r - Int.emod r 2) 2 = r - Int.emod r 2) := by
  refine ⟨?_, ?_, ?_⟩
  · intro u hu
    exact drawFold_posOk W H g grid (hexCoords grid.size) ⟨[], 0⟩
      (by intro u hu; exact absurd hu (List.not_mem_nil u)) u hu
  · intro r
    have hm : Int.emod r 2 = r % 2 := rfl
    have hd : Int.fdiv r 2 = r / 2 := Int.fdiv_eq_ediv _ (by omega)
    rw [hm, hd]
    refine ⟨?_, ?_, ?_⟩ <;> omega
  · intro q r
    have hm : Int.emod r 2 = r % 2 := rfl
    have hd : Int.fdiv (r - Int.emod r 2) 2 = (r - Int.emod r 2) / 2 :=
      Int.fdiv_eq_ediv _ (by omega)
    refine ⟨rfl, ?_⟩
    rw [hd, hm]
    omega

/-- C6, witness: the placement of the single cell of a size-1 corner grid
records the converted pixel position. -/
theorem c6_pixel_position_witness :
    (mkUse 1 1 ⟨"C"⟩ 0 0 4 true).x =
      (col (mkUse 1 1 ⟨"C"⟩ 0 0 4 true).q (mkUse 1 1 ⟨"C"⟩ 0 0 4 true).r : ℚ) * 1 +
        (Int.emod (mkUse 1 1 ⟨"C"⟩ 0 0 4 true).r 2 : ℚ) * (1 / 2) - 1 / 2 ∧
    (mkUse 1 1 ⟨"C"⟩ 0 0 4 true).y =
      ((mkUse 1 1 ⟨"C"⟩ 0 0 4 true).r : ℚ) * (1 * 3 / 4) - 1 / 2 :=
  (c6_pixel_position 1 1 (fun _ => 0) ⟨1, [], [], [⟨"C"⟩], false, []⟩).1
    (mkUse 1 1 ⟨"C"⟩ 0 0 4 true) (List.Mem.head _)

/-- C7: the axial-to-pixel conversion is injective — for positive tile
dimensions, two distinct coordinates of the hexagonal region of any grid
size have distinct pixel positions. -/
theorem c7_pixel_injective (W H : ℚ) (hW : 0 < W) (hH : 0 < H)
    (size q1 r1 q2 r2 : Int)
    (_h1 : |q1| ≤ size - 1 ∧ |r1| ≤ size - 1 ∧ |q1 + r1| ≤ size - 1)
    (_h2 : |q2| ≤ size - 1 ∧ |r2| ≤ size - 1 ∧ |q2 + r2| ≤ size - 1)
    (hne : ¬(q1 = q2 ∧ r1 = r2)) :
    ¬(tileX W q1 r1 = tileX W q2 r2 ∧ tileY H r1 = tileY H r2) := by
  rintro ⟨hx, hy⟩
  have hr : r1 = r2 := by
    unfold tileY at hy
    have hH34 : (H * 3 / 4 : ℚ) ≠ 0 := by positivity
    have h3 : (r1 : ℚ) * (H * 3 / 4) = (r2 : ℚ) * (H * 3 / 4) := by linarith
    have h4 : (r1 : ℚ) = (r2 : ℚ) := mul_right_cancel₀ hH34 h3
    exact_mod_cast h4
  subst hr
  have hq : q1 = q2 := by
    unfold tileX at hx
    have hW0 : (W : ℚ) ≠ 0 := ne_of_gt hW
    have h3 : (col q1 r1 : ℚ) * W = (col q2 r1 : ℚ) * W := by linarith
    have h4 : (col q1 r1 : ℚ) = (col q2 r1 : ℚ) := mul_right_cancel₀ hW0 h3
    have h5 : col q1 r1 = col q2 r1 := by exact_mod_cast h4
    unfold col at h5
    omega
  exact hne ⟨hq, rfl⟩

/-- C7, witness: the distinct cells `(0,0)` and `(0,1)` of a size-2 grid
have distinct pixel positions. -/
theorem c7_pixel_injective_witness :
    ¬(tileX 1 0 0 = tileX 1 0 1 ∧ tileY 1 0 = tileY 1 1) :=
  c7_pixel_injective 1 1 (by norm_num) (by norm_num) 2 0 0 0 1
    (by decide) (by decide) (by decide)

/-- Membership in the integer range of the loops. -/
theorem intRange_mem {a b x : Int} : x ∈ intRange a b ↔ a ≤ x ∧ x < b := by
  constructor
  · intro hx
    unfold intRange at hx
    obtain ⟨i, hi, hix⟩ := List.mem_map.mp hx
    rw [List.mem_range] at hi
    subst hix
    refine ⟨?_, ?_⟩ <;> · dsimp only; omega
  · intro h
    unfold intRange
    refine List.mem_map.mpr ⟨(x - a).toNat, List.mem_range.mpr (by omega), ?_⟩
    dsimp only
    omega

/-- The integer range of the loops has no duplicates. -/
theorem intRange_nodup (a b : Int) : (intRange a b).Nodup := by
  have h : Function.Injective (fun i : Nat => a + (i : Int)) := by
    intro i j hij
    simp only [add_right_inj, Nat.cast_inj] at hij
    exact hij
  exact List.Nodup.map h (List.nodup_range _)

/-- Pairing a duplicate-free outer list with duplicate-free inner lists
gives a duplicate-free list of pairs. -/
theorem pairs_nodup (l : List Int) (f : Int → List Int) (hl : l.Nodup)
    (hf : ∀ q, (f q).Nodup) :
    (l.flatMap (fun q => (f q).map (fun r => (q, r)))).Nodup := by
  induction l with
  | nil => simp
  | cons q l ih =>
    rw [List.flatMap_cons]
    rw [List.nodup_cons] at hl
    apply List.Nodup.append
    · exact List.Nodup.map (fun r1 r2 h => congrArg Prod.snd h) (hf q)
    · exact ih hl.2
    · intro x hx1 hx2
      obtain ⟨r1, hr1, hxeq⟩ := List.mem_map.mp hx1
      obtain ⟨q2, hq2, hx⟩ := List.mem_flatMap.mp hx2
      obtain ⟨r2, hr2, heq⟩ := List.mem_map.mp hx
      have hq : q2 = q := by
        have := congrArg Prod.fst (heq.trans hxeq.symm)
        exact this
      exact hl.1 (hq ▸ hq2)

/-- The coordinate enumeration of `draw` has no duplicates. -/
theorem hexCoords_nodup (size : Int) : (hexCoords size).Nodup := by
  unfold hexCoords
  exact pairs_nodup _ _ (intRange_nodup _ _)
    (fun q => List.Nodup.filter _ (intRange_nodup _ _))

/-- A coordinate is enumerated by `draw` exactly when it lies in the
hexagonal region of radius `size - 1`. -/
theorem hexCoords_mem {size q r : Int} :
    (q, r) ∈ hexCoords size ↔
      |q| ≤ size - 1 ∧ |r| ≤ size - 1 ∧ |q + r| ≤ size - 1 := by
  unfold hexCoords
  simp only [List.mem_flatMap, List.mem_map, List.mem_filter, intRange_mem,
    decide_eq_true_eq, Prod.mk.injEq]
  constructor
  · rintro ⟨a, ha, b, ⟨hb, hab⟩, rfl, rfl⟩
    exact ⟨abs_le.mpr ⟨by omega, by omega⟩, abs_le.mpr ⟨by omega, by omega⟩, hab⟩
  · rintro ⟨h1, h2, h3⟩
    rw [abs_le] at h1 h2
    exact ⟨q, ⟨by omega, by omega⟩, r, ⟨⟨by omega, by omega⟩, h3⟩, rfl, rfl⟩

/-- A border cell never raises: each of the corner, edge and skip branches
returns normally. -/
theorem drawCell_boundary_ok (W H : ℚ) (g : Nat → Nat) (grid : HexGrid)
    (st : DState) (q r : Int)
    (hb : max |q| (max |r| |-q - r|) = grid.size - 1) :
    ∃ st2, drawCell W H g grid st q r = .ok st2 := by
  unfold drawCell
  rw [if_pos hb]
  by_cases hc : (q = 0 ∨ r = 0 ∨ -q - r = 0) ∧ grid.cornertiles ≠ []
  · rw [if_pos hc]
    exact ⟨_, rfl⟩
  · rw [if_neg hc]
    by_cases he : grid.edgetiles ≠ []
    · rw [if_pos he]
      exact ⟨_, rfl⟩
    · rw [if_neg he]
      exact ⟨st, rfl⟩

/-- With an empty interior pool, an interior (non-border) cell raises the
`IndexError` of `random.choice`, leaving the state untouched. -/
theorem drawCell_interior_error (W H : ℚ) (g : Nat → Nat) (grid : HexGrid)
    (st : DState) (q r : Int) (htiles : grid.tiles = [])
    (hnb : ¬max |q| (max |r| |-q - r|) = grid.size - 1) :
    drawCell W H g grid st q r = .error st := by
  unfold drawCell
  rw [if_neg hnb, if_pos htiles]

/-- With an empty interior pool, the placement loop runs the border cells
preceding the first interior cell of the list, then raises there, leaving
exactly the document accumulated so far. -/
theorem drawFold_first_interior (W H : ℚ) (g : Nat → Nat) (grid : HexGrid)
    (htiles : grid.tiles = []) :
    ∀ (cs : List (Int × Int)) (st : DState),
      (∃ c ∈ cs, ¬max |c.1| (max |c.2| |-c.1 - c.2|) = grid.size - 1) →
      ∃ bs c rest st2, cs = bs ++ c :: rest ∧
        (∀ b ∈ bs, max |b.1| (max |b.2| |-b.1 - b.2|) = grid.size - 1) ∧
        ¬max |c.1| (max |c.2| |-c.1 - c.2|) = grid.size - 1 ∧
        drawFold W H g grid bs st = .ok st2 ∧
        drawFold W H g grid cs st = .error st2 := by
  intro cs
  induction cs with
  | nil => intro st h; exact absurd h (by simp)
  | cons c0 cs ih =>
    intro st h
    obtain ⟨cw, hcwmem, hcw⟩ := h
    by_cases hb0 : max |c0.1| (max |c0.2| |-c0.1 - c0.2|) = grid.size - 1
    · have hcw2 : cw ∈ cs := by
        rcases List.mem_cons.mp hcwmem with heq | hmem
        · exact absurd (heq ▸ hb0) hcw
        · exact hmem
      obtain ⟨st1, hst1⟩ := drawCell_boundary_ok W H g grid st c0.1 c0.2 hb0
      obtain ⟨bs, c, rest, st2, hsplit, hbs, hcint, hfoldbs, hfoldall⟩ :=
        ih st1 ⟨cw, hcw2, hcw⟩
      refine ⟨c0 :: bs, c, rest, st2, by simp [hsplit], ?_, hcint, ?_, ?_⟩
      · intro b hb
        rcases List.mem_cons.mp hb with heq | hmem
        · rw [heq]; exact hb0
        · exact hbs b hmem
      · simp only [drawFold]
        rw [hst1]
        exact hfoldbs
      · simp only [drawFold]
        rw [hst1]
        exact hfoldall
    · refine ⟨[], c0, cs, st, rfl, by simp, hb0, rfl, ?_⟩
      simp only [drawFold]
      rw [drawCell_interior_error W H g grid st c0.1 c0.2 htiles hb0]

/-- C8, amended: for every configuration with an empty interior pool and
an interior cell present (size at least 2), `draw` is not refused before
placement work begins: it fails — the `random.choice` on the empty pool —
exactly when the first interior cell in iteration order is reached; every
coordinate enumerated before that cell is a border cell, and the error
leaves behind precisely the partial document accumulated from those
earlier border cells. -/
theorem c8_error_after_boundary (W H : ℚ) (g : Nat → Nat) (grid : HexGrid)
    (hsz : 2 ≤ grid.size) (htiles : grid.tiles = []) :
    isOk (draw W H g grid) = false ∧
    ∃ bs c rest st2, hexCoords grid.size = bs ++ c :: rest ∧
      (∀ b ∈ bs, max |b.1| (max |b.2| |-b.1 - b.2|) = grid.size - 1) ∧
      ¬max |c.1| (max |c.2| |-c.1 - c.2|) = grid.size - 1 ∧
      drawFold W H g grid bs ⟨[], 0⟩ = .ok st2 ∧
      draw W H g grid = .error st2 := by
  have hc00 : ((0 : Int), (0 : Int)) ∈ hexCoords grid.size := by
    rw [hexCoords_mem]
    refine ⟨?_, ?_, ?_⟩ <;> simp <;> omega
  have hnb00 : ¬max |(0 : Int)| (max |(0 : Int)| |-(0 : Int) - 0|) = grid.size - 1 := by
    simp
    omega
  obtain ⟨bs, c, rest, st2, hsplit, hbs, hcint, hfoldbs, hfoldall⟩ :=
    drawFold_first_interior W H g grid htiles (hexCoords grid.size) ⟨[], 0⟩
      ⟨((0 : Int), (0 : Int)), hc00, hnb00⟩
  refine ⟨?_, bs, c, rest, st2, hsplit, hbs, hcint, hfoldbs, ?_⟩
  · unfold draw
    rw [hfoldall]
    rfl
  · unfold draw
    exact hfoldall

/-- C8, witness: the size-2 configuration with one edge tile and an empty
interior pool fails. -/
theorem c8_error_after_boundary_witness :
    isOk (draw 1 1 (fun _ => 0) ⟨2, [], [⟨"E"⟩], [], false, [⟨"E"⟩]⟩) = false :=
  (c8_error_after_boundary 1 1 (fun _ => 0)
    ⟨2, [], [⟨"E"⟩], [], false, [⟨"E"⟩]⟩ (by decide) rfl).1

/-- When the interior and edge pools are non-empty, one placement step
succeeds and adds exactly the key of the visited cell to the group. -/
theorem drawCell_key (W H : ℚ) (g : Nat → Nat) (grid : HexGrid)
    (st : DState) (q r : Int) (hint : grid.tiles ≠ [])
    (hedge : grid.edgetiles ≠ []) :
    ∃ st2, drawCell W H g grid st q r = .ok st2 ∧
      List.Perm (st2.group.map cellKey) ((q, r) :: st.group.map cellKey) := by
  unfold drawCell
  by_cases hb : max |q| (max |r| |-q - r|) = grid.size - 1
  · rw [if_pos hb]
    by_cases hc : (q = 0 ∨ r = 0 ∨ -q - r = 0) ∧ grid.cornertiles ≠ []
    · rw [if_pos hc]
      refine ⟨_, rfl, ?_⟩
      simp only [drawTile, if_true, List.map_cons]
      exact List.Perm.refl _
    · rw [if_neg hc, if_pos hedge]
      refine ⟨_, rfl, ?_⟩
      simp only [drawTile, Bool.false_eq_true, if_false, List.map_append,
        List.map_cons, List.map_nil]
      exact List.perm_append_singleton _ _
  · rw [if_neg hb, if_neg hint]
    refine ⟨_, rfl, ?_⟩
    simp only [drawTile, Bool.false_eq_true, if_false, List.map_append,
      List.map_cons, List.map_nil]
    exact List.perm_append_singleton _ _

/-- When the interior and edge pools are non-empty, the placement loop
succeeds and the keys of the final group are a permutation of the visited
coordinates plus the initial keys. -/
theorem drawFold_key (W H : ℚ) (g : Nat → Nat) (grid : HexGrid)
    (hint : grid.tiles ≠ []) (hedge : grid.edgetiles ≠ []) :
    ∀ (cs : List (Int × Int)) (st : DState),
      ∃ st2, drawFold W H g grid cs st = .ok st2 ∧
        List.Perm (st2.group.map cellKey) (cs ++ st.group.map cellKey) := by
  intro cs
  induction cs with
  | nil => intro st; exact ⟨st, rfl, by simp⟩
  | cons c cs ih =>
    intro st
    obtain ⟨st1, heq, hperm⟩ := drawCell_key W H g grid st c.1 c.2 hint hedge
    obtain ⟨st2, heq2, hperm2⟩ := ih st1
    refine ⟨st2, ?_, ?_⟩
    · simp only [drawFold]
      rw [heq]
      exact heq2
    · exact hperm2.trans ((List.Perm.append_left cs hperm).trans List.perm_middle)

/-- C1 (amended): for a grid of size at least 1 whose interior pool and
edge pool are both non-empty, `draw` succeeds and produces exactly one
placement instruction for every axial coordinate `(q, r)` with
`|q| ≤ size-1`, `|r| ≤ size-1` and `|q+r| ≤ size-1`, and none for any
coordinate outside that region. -/
theorem c1_one_placement_per_cell (W H : ℚ) (g : Nat → Nat) (grid : HexGrid)
    (_hsize : 1 ≤ grid.size) (hint : grid.tiles ≠ [])
    (hedge : grid.edgetiles ≠ []) :
    isOk (draw W H g grid) = true ∧
    ∀ c : Int × Int,
      (((placements (draw W H g grid)).map cellKey : List (Int × Int)) :
          Multiset (Int × Int)).count c =
        if |c.1| ≤ grid.size - 1 ∧ |c.2| ≤ grid.size - 1 ∧
            |c.1 + c.2| ≤ grid.size - 1 then 1 else 0 := by
  obtain ⟨st2, heq, hperm⟩ :=
    drawFold_key W H g grid hint hedge (hexCoords grid.size) ⟨[], 0⟩
  have hdraw : draw W H g grid = .ok st2 := heq
  constructor
  · rw [hdraw]; rfl
  · intro c
    rw [hdraw]
    have hperm2 : List.Perm (st2.group.map cellKey) (hexCoords grid.size) := by
      simpa using hperm
    have hcoe : ((st2.group.map cellKey : List (Int × Int)) :
        Multiset (Int × Int)) = (hexCoords grid.size : Multiset (Int × Int)) :=
      Quot.sound hperm2
    show (((st2.group.map cellKey : List (Int × Int)) :
      Multiset (Int × Int))).count c = _
    rw [hcoe]
    by_cases hmem : c ∈ hexCoords grid.size
    · rw [if_pos ((@hexCoords_mem grid.size c.1 c.2).mp hmem)]
      exact Multiset.count_eq_one_of_mem
        (Multiset.coe_nodup.mpr (hexCoords_nodup _)) (Multiset.mem_coe.mpr hmem)
    · rw [if_neg (fun hreg => hmem ((@hexCoords_mem grid.size c.1 c.2).mpr hreg))]
      exact Multiset.count_eq_zero_of_not_mem
        (fun h => hmem (Multiset.mem_coe.mp h))

/-- C1, witness: a size-2 grid with all three pools populated succeeds. -/
theorem c1_one_placement_per_cell_witness :
    isOk (draw 1 1 (fun _ => 0) ⟨2, [⟨"A"⟩], [⟨"E"⟩], [⟨"C"⟩], false, []⟩) = true :=
  (c1_one_placement_per_cell 1 1 (fun _ => 0)
    ⟨2, [⟨"A"⟩], [⟨"E"⟩], [⟨"C"⟩], false, []⟩ (by decide) (by decide) (by decide)).1

end HexTruchet
